import Mathlib

/-!
The arduino-console interpreter: status codes, operand stack operators, accept,
process and print.

A shallow embedding of `src/console.h` and `examples/desktop/main.c`.

* Machine words are `Int` values kept in the signed range of a `w`-bit
  two's-complement word; every arithmetic result is reduced with `wrap`.
* The operand stack is a `List Int` whose head is the top of stack (TOS),
  the second element is NOS, and so on down to the bottom.
* `console_raise` is a `longjmp`: whatever was done to the stack before the
  raise stays done. A computation therefore ends either in `Result.ok` or in
  `Result.raised`, and both carry the stack as it is at that moment.
* The values of `console-config-default.h` (word widths, sizes, newline
  character) are not part of the sources and are taken as parameters, and so
  is the width of `int` on the platform, which decides the integer promotions.
-/

namespace Console

/-! ## Status codes (console.h, lines 71-89; main.c, lines 8-10) -/

/-- Returned by consoleProcess() for no errors and by consoleAccept() for a newline with no overflow. -/
def CONSOLE_RC_OK : Int := 0
/-- A command or value was not recognised. -/
def CONSOLE_RC_ERR_BAD_CMD : Int := 1
/-- A number overflowed its allowed bounds. -/
def CONSOLE_RC_ERR_NUM_OVF : Int := 2
/-- Stack underflowed (attempt to pop or examine too many items). -/
def CONSOLE_RC_ERR_DSTK_UNF : Int := 3
/-- Stack overflowed (attempt to push too many items). -/
def CONSOLE_RC_ERR_DSTK_OVF : Int := 4
/-- Accept buffer has been sent more characters than it can hold. -/
def CONSOLE_RC_ERR_ACC_OVF : Int := 5
/-- Index out of range. -/
def CONSOLE_RC_ERR_BAD_IDX : Int := 6
/-- Error codes available for the user: the enumerator has no initialiser, so it
is the previous enumerator plus one. -/
def CONSOLE_RC_ERR_USER : Int := CONSOLE_RC_ERR_BAD_IDX + 1
/-- Internal signal used to implement comments. -/
def CONSOLE_RC_STAT_IGN_EOL : Int := -1
/-- Only returned by consoleAccept() to signal that it is still accepting characters. -/
def CONSOLE_RC_STAT_ACC_PEND : Int := -2
/-- Status codes available for the user. -/
def CONSOLE_RC_STAT_USER : Int := -3
/-- Exit from program (main.c): `CONSOLE_RC_ERR_USER_EXIT = CONSOLE_RC_ERR_USER`. -/
def CONSOLE_RC_ERR_USER_EXIT : Int := CONSOLE_RC_ERR_USER

/-- The built-in error codes, in declaration order. -/
def builtinErrorCodes : List Int :=
  [CONSOLE_RC_ERR_BAD_CMD, CONSOLE_RC_ERR_NUM_OVF, CONSOLE_RC_ERR_DSTK_UNF,
   CONSOLE_RC_ERR_DSTK_OVF, CONSOLE_RC_ERR_ACC_OVF, CONSOLE_RC_ERR_BAD_IDX]

/-- The built-in status codes, in declaration order. -/
def builtinStatusCodes : List Int :=
  [CONSOLE_RC_STAT_IGN_EOL, CONSOLE_RC_STAT_ACC_PEND]

/-- Every enumerator of the status enum of console.h. -/
def namedCodes : List Int :=
  [CONSOLE_RC_OK] ++ builtinErrorCodes ++ [CONSOLE_RC_ERR_USER] ++ builtinStatusCodes
    ++ [CONSOLE_RC_STAT_USER]

/-! ## Machine words (console.h, lines 19-23) -/

/-- Conversion of an integer to the unsigned `w`-bit type: reduction modulo `2^w`. -/
def toUnsigned (w : Nat) (x : Int) : Nat := (x % (2 : Int) ^ w).toNat

/-- Conversion of an unsigned value to the signed `w`-bit type (two's complement). -/
def toSigned (w : Nat) (u : Nat) : Int :=
  if u % 2 ^ w < 2 ^ (w - 1) then ((u % 2 ^ w : Nat) : Int)
  else ((u % 2 ^ w : Nat) : Int) - (2 : Int) ^ w

/-- A signed arithmetic result brought back into the `w`-bit word. -/
def wrap (w : Nat) (x : Int) : Int := toSigned w (toUnsigned w x)

/-- Bitwise complement `~u` of an unsigned `w`-bit value. -/
def bitNot (w : Nat) (u : Nat) : Nat := 2 ^ w - 1 - u % 2 ^ w

/-- Bitwise complement `~x` of a value of type `int` (two's complement). -/
def intNot (x : Int) : Int := -x - 1

/-- Macro `#define CONSOLE_UINT_MAX (~(console_uint_t)(0))`. The operand of `~`
undergoes the integer promotions: when console_uint_t (`w` bits) is narrower
than `int` (`intBits` bits) the zero is promoted to `int` and the result is the
`int` value `~0`; otherwise the complement is taken in the unsigned `w`-bit
type. -/
def CONSOLE_UINT_MAX (intBits w : Nat) : Int :=
  if w < intBits then intNot 0 else ((bitNot w 0 : Nat) : Int)

/-- Macro `#define CONSOLE_INT_MAX ((console_int_t)(CONSOLE_UINT_MAX >> 1))`. The
shift is done in the type of CONSOLE_UINT_MAX (an arithmetic shift when that is
`int`), and the cast brings the result into the signed `w`-bit type. -/
def CONSOLE_INT_MAX (intBits w : Nat) : Int :=
  wrap w (CONSOLE_UINT_MAX intBits w >>> (1 : Nat))

/-- Macro `#define CONSOLE_INT_MIN ((console_int_t)(~(CONSOLE_UINT_MAX >> 1)))`.
The complement is taken in the type of `CONSOLE_UINT_MAX >> 1`: in `int` when
console_uint_t is narrower than `int`, in the unsigned `w`-bit type otherwise. -/
def CONSOLE_INT_MIN (intBits w : Nat) : Int :=
  wrap w
    (if w < intBits then intNot (CONSOLE_UINT_MAX intBits w >>> (1 : Nat))
     else ((bitNot w (CONSOLE_UINT_MAX intBits w >>> (1 : Nat)).toNat : Nat) : Int))

/-- A value that a `w`-bit signed word can hold. -/
def isWord (w : Nat) (x : Int) : Prop := -(2 : Int) ^ (w - 1) ≤ x ∧ x < (2 : Int) ^ (w - 1)

instance (w : Nat) (x : Int) : Decidable (isWord w x) := by
  unfold isWord; infer_instance

/-! ## Operand stack and the abort channel (console.h, lines 113-136) -/

/-- The operand stack, top of stack first. -/
abbrev Stack := List Int

/-- How a piece of command code ends: normally with a value, or through
`console_raise` with a status code. Both carry the stack at that moment. -/
inductive Result (α : Type) where
  | ok (val : α) (stk : Stack)
  | raised (rc : Int) (stk : Stack)
  deriving DecidableEq, Repr

/-- The stack a computation leaves behind. -/
def Result.stack {α : Type} : Result α → Stack
  | .ok _ s => s
  | .raised _ s => s

/-- Call on error: control returns to the last setjmp with the error code. -/
def console_raise {α : Type} (rc : Int) (s : Stack) : Result α := .raised rc s

/-- Modelled from the spec: console_verify_can_pop is declared in console.h, its
body is not in the sources. Section 4.5: insufficient depth raises the
stack-underflow error, and the check comes before any mutation. -/
def console_verify_can_pop (n : Nat) (s : Stack) : Result Unit :=
  if s.length < n then console_raise CONSOLE_RC_ERR_DSTK_UNF s else .ok () s

/-- Modelled from the spec: console_verify_can_push is declared in console.h, its
body is not in the sources. Section 4.5: a push beyond the capacity `size`
raises the stack-overflow error, checked before the mutation. -/
def console_verify_can_push (size : Nat) (n : Nat) (s : Stack) : Result Unit :=
  if size < s.length + n then console_raise CONSOLE_RC_ERR_DSTK_OVF s else .ok () s

/-- Modelled from the spec: console_u_pop is declared in console.h, its body is
not in the sources. Section 4.5: `pop` verifies that one value can be popped,
then removes and returns the top value. -/
def console_u_pop (s : Stack) : Result Int :=
  match console_verify_can_pop 1 s with
  | .raised rc s1 => .raised rc s1
  | .ok _ s1 =>
    match s1 with
    | [] => console_raise CONSOLE_RC_ERR_DSTK_UNF []
    | x :: rest => .ok x rest

/-- Modelled from the spec: console_u_push is declared in console.h, its body is
not in the sources. Section 4.5: `push` verifies that one value fits, then
puts the value on top. -/
def console_u_push (size : Nat) (x : Int) (s : Stack) : Result Unit :=
  match console_verify_can_push size 1 s with
  | .raised rc s1 => .raised rc s1
  | .ok _ s1 => .ok () (x :: s1)

/-- Modelled from the spec: console_u_tos_ is declared in console.h, its body is
not in the sources. Reading `console_u_tos()`: section 4.5 has peek raise the
stack-underflow error on insufficient depth; otherwise the top value is read
and the stack is left alone. -/
def console_u_tos (s : Stack) : Result Int :=
  match console_verify_can_pop 1 s with
  | .raised rc s1 => .raised rc s1
  | .ok _ s1 =>
    match s1 with
    | [] => console_raise CONSOLE_RC_ERR_DSTK_UNF []
    | x :: rest => .ok x (x :: rest)

/-- Modelled from the spec: console_u_tos_ is declared in console.h, its body is
not in the sources. Writing `console_u_tos() = v`: the same availability check
as for reading, then the top value is replaced. -/
def console_u_tos_assign (v : Int) (s : Stack) : Result Unit :=
  match console_verify_can_pop 1 s with
  | .raised rc s1 => .raised rc s1
  | .ok _ s1 =>
    match s1 with
    | [] => console_raise CONSOLE_RC_ERR_DSTK_UNF []
    | _ :: rest => .ok () (v :: rest)

/-- The macro of console.h, line 135:
`{ const console_int_t rhs = console_u_pop(); console_u_tos() = console_u_tos() op_ rhs; }`.
The value assigned is the result of `op` brought back into the `w`-bit word. -/
def console_binop (w : Nat) (op : Int → Int → Int) (s : Stack) : Result Unit :=
  match console_u_pop s with
  | .raised rc s1 => .raised rc s1
  | .ok rhs s1 =>
    match console_u_tos s1 with
    | .raised rc s2 => .raised rc s2
    | .ok lhs s2 => console_u_tos_assign (wrap w (op lhs rhs)) s2

/-- The macro of console.h, line 136: `{ console_u_tos() = op_ console_u_tos(); }`. -/
def console_unop (w : Nat) (op : Int → Int) (s : Stack) : Result Unit :=
  match console_u_tos s with
  | .raised rc s1 => .raised rc s1
  | .ok v s1 => console_u_tos_assign (wrap w (op v)) s1

/-- What follows a `case` body of a recogniser: `break; ... return true;`. -/
def matched (r : Result Unit) : Result Bool :=
  match r with
  | .ok _ s => .ok true s
  | .raised rc s => .raised rc s

/-- The user recogniser of main.c, lines 12-23. `hash` is `console_hash`, `w` the
width of `console_int_t` and `rcw` the width of `console_rc_t`. -/
def console_cmds_user (hash : List Char → Nat) (w rcw : Nat) (cmd : List Char)
    (s : Stack) : Result Bool :=
  let h := hash cmd
  if h = 0xB58E then matched (console_binop w (fun a b => a + b) s)
  else if h = 0xB588 then matched (console_binop w (fun a b => a - b) s)
  else if h = 0x7A79 then matched (console_unop w (fun a => -a) s)
  else if h = 0x4069 then
    match console_u_pop s with
    | .raised rc s1 => .raised rc s1
    | .ok x s1 => console_raise (wrap rcw x) s1
  else if h = 0xC745 then console_raise CONSOLE_RC_ERR_USER_EXIT s
  else if h = 0xB586 then console_raise CONSOLE_RC_STAT_IGN_EOL s
  else .ok false s

/-- Modelled from the spec: console_hash is declared in console.h, its body is not
in the sources. Section 4.4 and the header: a 16 bit hash, lower case letters
are converted to upper case, every character up to the nul is hashed. The seed
5381, the multiplier 33 and the exclusive-or step are those of the classic
string hash; with them all six `case` keys of console_cmds_user are reproduced
(see `console_hash_keys`). -/
def console_hash (str : List Char) : Nat :=
  str.foldl
    (fun h c =>
      let u := if 97 ≤ c.toNat ∧ c.toNat ≤ 122 then c.toNat - 32 else c.toNat
      ((h * 33) % 65536) ^^^ (u % 256))
    5381


/-! ## The recogniser list of the desktop example (main.c, lines 25-38) -/

/-- The recogniser functions declared in console.h and main.c. -/
inductive RecogniserName where
  | console_r_number_decimal
  | console_r_number_hex
  | console_r_string
  | console_r_hex_string
  | console_cmds_builtin
  | console_cmds_help
  | console_cmds_user
  deriving DecidableEq, Repr, Fintype

/-- The array `RECOGNISERS` of main.c; `none` is the terminating `NULL`, and
`want_help` says whether `CONSOLE_WANT_HELP` is defined. -/
def RECOGNISERS (want_help : Bool) : List (Option RecogniserName) :=
  [some .console_r_number_decimal,
   some .console_r_number_hex,
   some .console_r_string,
   some .console_r_hex_string,
   some .console_cmds_builtin] ++
  (if want_help then [some .console_cmds_help] else []) ++
  [some .console_cmds_user,
   none]

/-- The number and string recognisers. -/
def RecogniserName.isNumberOrString : RecogniserName → Bool
  | .console_r_number_decimal => true
  | .console_r_number_hex => true
  | .console_r_string => true
  | .console_r_hex_string => true
  | _ => false

/-- The recognisers that look a command up by its hash. -/
def RecogniserName.isHashBased : RecogniserName → Bool
  | .console_cmds_builtin => true
  | .console_cmds_help => true
  | .console_cmds_user => true
  | _ => false

/-! ## Line processing (console.h, lines 25-31 and 97-100) -/

/-- A recogniser: `bool (*console_recogniser_func)(char* cmd)`. It returns false
if it cannot parse the token, true if it did, or it raises. The rewriting of
the token bytes that a recogniser may do in place is not modelled. -/
abbrev Recogniser := List Char → Stack → Result Bool

/-- Modelled from the spec: the function that runs the chain is not in the
sources. Section 4.3 and console.h, lines 29-31: the recognisers are tried in
order; if one returns false the next is called; if one returns true the command
has worked; a raise aborts with its code. Section 4.2: when the chain is
exhausted the result is the bad-command error. -/
def execute (rs : List Recogniser) (cmd : List Char) (s : Stack) : Result Unit :=
  match rs with
  | [] => console_raise CONSOLE_RC_ERR_BAD_CMD s
  | r :: rest =>
    match r cmd s with
    | .raised rc s1 => .raised rc s1
    | .ok true s1 => .ok () s1
    | .ok false s1 => execute rest cmd s1

/-- What consoleProcess hands back: the status code, `*current` (the token being
executed, when one was reached), the operand stack, and as a record of the run
the tokens that were handed to the chain, in order. -/
structure ProcessResult where
  rc : Int
  current : Option (List Char)
  stack : Stack
  dispatched : List (List Char)
  deriving DecidableEq, Repr

/-- Modelled from the spec: the body of consoleProcess is not in the sources.
Section 4.2: skip leading whitespace; at the end of the line return OK;
otherwise isolate the next whitespace-delimited token, move the cursor past it
and run the chain on it; a raise stops the dispatch at once and its status is
returned. `ws` is the whitespace test; the line is the text before the nul. One
unit of fuel is spent per token; `none` means the fuel ran out. -/
def processLoop (ws : Char → Bool) (rs : List Recogniser) :
    Nat → List Char → Option (List Char) → List (List Char) → Stack → Option ProcessResult
  | 0, _, _, _, _ => none
  | fuel + 1, str, cur, seen, s =>
    match str.dropWhile ws with
    | [] => some ⟨CONSOLE_RC_OK, cur, s, seen⟩
    | c :: cs =>
      let cmd := (c :: cs).takeWhile (fun x => !ws x)
      let rest := (c :: cs).dropWhile (fun x => !ws x)
      match execute rs cmd s with
      | .raised rc s1 => some ⟨rc, some cmd, s1, seen ++ [cmd]⟩
      | .ok _ s1 => processLoop ws rs fuel rest (some cmd) (seen ++ [cmd]) s1

/-- Modelled from the spec: `consoleProcess(str, &current)`, see `processLoop`. A
line of `n` characters has at most `n` tokens, so `n + 1` units of fuel are
enough (`consoleProcess_returns`). -/
def consoleProcess (ws : Char → Bool) (rs : List Recogniser) (str : List Char)
    (s : Stack) : Option ProcessResult :=
  processLoop ws rs (str.length + 1) str none [] s

/-! ## The input accumulator (console.h, lines 102-111 and 141-142) -/

/-- The terminating nul. -/
def nul : Char := Char.ofNat 0

/-- The state of accept: the buffer (room for the configured number of
characters and the nul), the count of stored characters, and whether a
character of the current line was dropped. -/
structure AcceptState where
  inbuf : List Char
  inbidx : Nat
  overflow : Bool
  deriving DecidableEq, Repr

/-- Modelled from the spec: the body of consoleAcceptClear is not in the sources.
Section 4.1: `clear()` resets the length to zero and keeps the buffer. -/
def consoleAcceptClear (a : AcceptState) : AcceptState :=
  { a with inbidx := 0, overflow := false }

/-- Modelled from the spec: the body of consoleAccept is not in the sources.
Section 4.1 and console.h, lines 108-110: a character other than the newline
character `nl` is appended unless the buffer already holds `size` characters,
in which case it is dropped, and the call returns the pending status either
way; on the newline character the buffer is nul terminated at the current
length, the result is OK if no character was dropped and the accumulator
overflow error otherwise, and the state is reset as by consoleAcceptClear
(console.h, lines 104-105). -/
def consoleAccept (size : Nat) (nl : Char) (c : Char) (a : AcceptState) : Int × AcceptState :=
  if c = nl then
    (if a.overflow then CONSOLE_RC_ERR_ACC_OVF else CONSOLE_RC_OK,
     consoleAcceptClear { a with inbuf := a.inbuf.set a.inbidx nul })
  else if a.inbidx < size then
    (CONSOLE_RC_STAT_ACC_PEND, { a with inbuf := a.inbuf.set a.inbidx c, inbidx := a.inbidx + 1 })
  else
    (CONSOLE_RC_STAT_ACC_PEND, { a with overflow := true })

/-- Return input buffer: `consoleAcceptBuffer()`. -/
def consoleAcceptBuffer (a : AcceptState) : List Char := a.inbuf

/-- The host feeding characters one at a time (main.c, lines 69-72): the status
of every call, in order, and the state after the last one. -/
def acceptAll (size : Nat) (nl : Char) : List Char → AcceptState → List Int × AcceptState
  | [], a => ([], a)
  | c :: cs, a =>
    let r := consoleAccept size nl c a
    let t := acceptAll size nl cs r.2
    (r.1 :: t.1, t.2)

/-- A whole line typed at the host: the characters of `line` one at a time and
then the newline character. The statuses of the calls for `line`, the status of
the newline call, and the state after it. -/
def acceptLine (size : Nat) (nl : Char) (line : List Char) (a : AcceptState) :
    List Int × Int × AcceptState :=
  let r := acceptAll size nl line a
  let e := consoleAccept size nl nl r.2
  (r.1, e.1, e.2)

/-! ## The host loop of the desktop example (main.c, lines 73-85) -/

/-- What the host writes to its terminal. -/
inductive HostOut where
  | separator
  | bye
  | errorReport (cmd : List Char) (rc : Int)
  | prompt
  deriving DecidableEq, Repr

/-- The body of `if (rc >= CONSOLE_RC_OK) { ... }` in main.c from the point where
consoleProcess has returned `rc` with `*current = cmd`: the output written, and
whether the loop goes on (`false` is the `break`). -/
def host_on_line (rc : Int) (cmd : List Char) : List HostOut × Bool :=
  if CONSOLE_RC_OK ≠ rc then
    if CONSOLE_RC_ERR_USER_EXIT = rc then
      ([.separator, .bye], false)
    else
      ([.separator, .errorReport cmd rc, .prompt], true)
  else
    ([.separator, .prompt], true)

/-- Prints a newline, second arg ignored, no separator is printed. -/
def CONSOLE_PRINT_NEWLINE : Nat := 0
/-- Prints second arg as a signed integer, with trailing space. -/
def CONSOLE_PRINT_SIGNED : Nat := 1
/-- Print second arg as an unsigned integer, with trailing space. -/
def CONSOLE_PRINT_UNSIGNED : Nat := 2
/-- Print second arg as a hex integer, with trailing space. -/
def CONSOLE_PRINT_HEX : Nat := 3
/-- Print second arg as pointer to string in RAM, with trailing space. -/
def CONSOLE_PRINT_STR : Nat := 4
/-- Print second arg as pointer to string in PROGMEM, with trailing space. -/
def CONSOLE_PRINT_STR_P : Nat := 5
/-- Print second arg as char, with trailing space. -/
def CONSOLE_PRINT_CHAR : Nat := 6
/-- AND with option to not print a trailing space. -/
def CONSOLE_PRINT_NO_SEP : Nat := 0x80

/-- The seven kinds that the enum of console.h defines. -/
def definedKinds : List Nat :=
  [CONSOLE_PRINT_NEWLINE, CONSOLE_PRINT_SIGNED, CONSOLE_PRINT_UNSIGNED, CONSOLE_PRINT_HEX,
   CONSOLE_PRINT_STR, CONSOLE_PRINT_STR_P, CONSOLE_PRINT_CHAR]

/-- Output of `printf("%ld", x)`. -/
def printf_ld (x : Int) : List Char :=
  if x < 0 then '-' :: Nat.toDigits 10 x.natAbs else Nat.toDigits 10 x.natAbs

/-- Output of `printf("%lu", u)`. -/
def printf_lu (u : Nat) : List Char := Nat.toDigits 10 u

/-- Output of `printf("%lx", u)`. -/
def printf_lx (u : Nat) : List Char := Nat.toDigits 16 u

/-- The function consolePrint of main.c. `w` is the width of `console_int_t`,
`mem a` is the nul terminated string found at address `a`, and the result is
the text written to stdout. -/
def consolePrint (w : Nat) (mem : Int → List Char) (opt : Nat) (x : Int) : List Char :=
  let sep : List Char := if opt &&& CONSOLE_PRINT_NO_SEP = 0 then [' '] else []
  match opt &&& 0x7f with
  | 0 => ['\n']
  | 1 => printf_ld x ++ sep
  | 2 => '+' :: printf_lu (toUnsigned w x) ++ sep
  | 3 => '$' :: printf_lx (toUnsigned w x) ++ sep
  | 5 => mem x ++ sep
  | 4 => mem x ++ sep
  | 6 => Char.ofNat (toUnsigned 8 x) :: sep
  | _ => []

/-! ## Facts about machine words -/

/-- The signed reading of an unsigned value below `2^(k+1)`. -/
theorem toSigned_succ (k u : Nat) (hu : u < 2 * 2 ^ k) :
    toSigned (k + 1) u = if u < 2 ^ k then (u : Int) else (u : Int) - 2 * 2 ^ k := by
  unfold toSigned
  have h2 : (2 : Nat) ^ (k + 1) = 2 * 2 ^ k := by ring
  have h3 : ((2 : Int) ^ (k + 1)) = 2 * 2 ^ k := by ring
  rw [h2, Nat.mod_eq_of_lt hu, h3]
  simp

/-- The unsigned reading of an integer, as an integer. -/
theorem toUnsigned_cast (w : Nat) (x : Int) :
    ((toUnsigned w x : Nat) : Int) = x % (2 : Int) ^ w := by
  unfold toUnsigned
  exact Int.toNat_of_nonneg (Int.emod_nonneg _ (by positivity))

/-- The unsigned reading is below `2^w`. -/
theorem toUnsigned_lt (w : Nat) (x : Int) : toUnsigned w x < 2 ^ w := by
  have h := toUnsigned_cast w x
  have h2 : x % (2 : Int) ^ w < (2 : Int) ^ w := Int.emod_lt_of_pos _ (by positivity)
  have h3 : ((toUnsigned w x : Nat) : Int) < ((2 ^ w : Nat) : Int) := by
    rw [h]; push_cast; exact h2
  exact_mod_cast h3

/-- A word is its own wrap; more generally `wrap` picks the word congruent to its argument. -/
theorem wrap_eq_of_sub (k : Nat) (x y q : Int) (hy : isWord (k + 1) y)
    (hq : x = y + q * (2 * 2 ^ k)) : wrap (k + 1) x = y := by
  unfold wrap
  have hlt := toUnsigned_lt (k + 1) x
  have hc := toUnsigned_cast (k + 1) x
  have h3 : ((2 : Int) ^ (k + 1)) = 2 * 2 ^ k := by ring
  have h2 : (2 : Nat) ^ (k + 1) = 2 * 2 ^ k := by ring
  rw [h2] at hlt
  rw [toSigned_succ k _ hlt]
  generalize (toUnsigned (k + 1) x) = u at hc hlt ⊢
  rw [h3, hq, Int.add_mul_emod_self] at hc
  obtain ⟨hy1, hy2⟩ := hy
  simp only [Nat.add_sub_cancel] at hy1 hy2
  have hP : (0 : Int) < 2 ^ k := by positivity
  have hcast : ((2 ^ k : Nat) : Int) = (2 : Int) ^ k := by push_cast; rfl
  by_cases hneg : y < 0
  · have hm : y % (2 * 2 ^ k) = y + 2 * 2 ^ k := by
      rw [← Int.add_mul_emod_self_left y (2 * 2 ^ k) 1, mul_one]
      exact Int.emod_eq_of_lt (by linarith) (by linarith)
    rw [hm] at hc
    have : ¬ (u < 2 ^ k) := by
      intro hu
      have : (u : Int) < ((2 ^ k : Nat) : Int) := by exact_mod_cast hu
      rw [hcast] at this
      linarith
    rw [if_neg this]; linarith
  · have hm : y % (2 * 2 ^ k) = y := Int.emod_eq_of_lt (by linarith) (by linarith)
    rw [hm] at hc
    have : u < 2 ^ k := by
      have : (u : Int) < ((2 ^ k : Nat) : Int) := by rw [hcast]; linarith
      exact_mod_cast this
    rw [if_pos this]; exact hc

/-- A word is its own wrap. -/
theorem wrap_of_isWord (w : Nat) (hw : 0 < w) (x : Int) (hx : isWord w x) : wrap w x = x := by
  obtain ⟨k, rfl⟩ : ∃ k, w = k + 1 := ⟨w - 1, by omega⟩
  exact wrap_eq_of_sub k x x 0 hx (by ring)

/-- The shifted all-ones value when no promotion takes place. -/
theorem UINT_MAX_shift (intBits k : Nat) (hp : intBits ≤ k + 1) :
    CONSOLE_UINT_MAX intBits (k + 1) >>> (1 : Nat) = (2 : Int) ^ k - 1 := by
  have hP : 0 < 2 ^ k := by positivity
  have h2 : (2 : Nat) ^ (k + 1) = 2 * 2 ^ k := by ring
  have e : bitNot (k + 1) 0 = 2 * 2 ^ k - 1 := by
    unfold bitNot; rw [h2]; simp
  unfold CONSOLE_UINT_MAX
  rw [if_neg (by omega), e, Int.shiftRight_eq_div_pow]
  have hc : ((2 * 2 ^ k - 1 : Nat) : Int) = 2 * (2 : Int) ^ k - 1 := by
    rw [Nat.cast_sub (by omega)]; push_cast; ring
  rw [hc]
  have hpos : (0 : Int) < 2 ^ k := by positivity
  norm_num
  omega

/-- Without promotion (console_uint_t at least as wide as `int`) the macro
CONSOLE_INT_MIN evaluates to `-2^(w-1)`. -/
theorem INT_MIN_eq (intBits w : Nat) (hw : 0 < w) (hp : intBits ≤ w) :
    CONSOLE_INT_MIN intBits w = -(2 : Int) ^ (w - 1) := by
  obtain ⟨k, rfl⟩ : ∃ k, w = k + 1 := ⟨w - 1, by omega⟩
  have hP : 0 < 2 ^ k := by positivity
  have hpos : (0 : Int) < 2 ^ k := by positivity
  have h2 : (2 : Nat) ^ (k + 1) = 2 * 2 ^ k := by ring
  have ht : ((2 : Int) ^ k - 1).toNat = 2 ^ k - 1 := by
    have : ((2 : Int) ^ k - 1) = ((2 ^ k - 1 : Nat) : Int) := by
      rw [Nat.cast_sub (by omega)]; push_cast; ring
    rw [this, Int.toNat_ofNat]
  have e2 : bitNot (k + 1) (2 ^ k - 1) = 2 ^ k := by
    unfold bitNot
    rw [h2, Nat.mod_eq_of_lt (by omega)]; omega
  unfold CONSOLE_INT_MIN
  rw [if_neg (by omega), UINT_MAX_shift intBits k hp, ht, e2]
  simp only [Nat.add_sub_cancel]
  refine wrap_eq_of_sub k _ _ 1 ?_ ?_
  · constructor <;> simp only [Nat.add_sub_cancel] <;> linarith
  · push_cast; ring

/-- Without promotion (console_uint_t at least as wide as `int`) the macro
CONSOLE_INT_MAX evaluates to `2^(w-1) - 1`. -/
theorem INT_MAX_eq (intBits w : Nat) (hw : 0 < w) (hp : intBits ≤ w) :
    CONSOLE_INT_MAX intBits w = (2 : Int) ^ (w - 1) - 1 := by
  obtain ⟨k, rfl⟩ : ∃ k, w = k + 1 := ⟨w - 1, by omega⟩
  have hpos : (0 : Int) < 2 ^ k := by positivity
  unfold CONSOLE_INT_MAX
  rw [UINT_MAX_shift intBits k hp]
  simp only [Nat.add_sub_cancel]
  refine wrap_of_isWord (k + 1) (by omega) _ ?_
  constructor <;> simp only [Nat.add_sub_cancel] <;> linarith

/-- Negating twice in the machine word gives the word back, the minimum included. -/
theorem wrap_neg_neg (w : Nat) (hw : 0 < w) (v : Int) (hv : isWord w v) :
    wrap w (-(wrap w (-v))) = v := by
  obtain ⟨k, rfl⟩ : ∃ k, w = k + 1 := ⟨w - 1, by omega⟩
  have hv2 := hv
  obtain ⟨h1, h2⟩ := hv2
  simp only [Nat.add_sub_cancel] at h1 h2
  by_cases hmin : v = -(2 : Int) ^ k
  · have e : wrap (k + 1) (-v) = v :=
      wrap_eq_of_sub k (-v) v 1 hv (by rw [hmin]; ring)
    rw [e, e]
  · have hlt : -(2 : Int) ^ k < v := lt_of_le_of_ne h1 (Ne.symm hmin)
    have hn : isWord (k + 1) (-v) := by
      constructor <;> simp only [Nat.add_sub_cancel] <;> linarith
    rw [wrap_of_isWord (k + 1) (by omega) (-v) hn, neg_neg]
    exact wrap_of_isWord (k + 1) (by omega) v hv

/-- A value between `-2^k` and `2^k` is a word once the word has more than `k` bits. -/
theorem isWord_of_bits (w k : Nat) (hw : k + 1 ≤ w) (x : Int) (h1 : -(2 : Int) ^ k ≤ x)
    (h2 : x < (2 : Int) ^ k) : isWord w x := by
  have hp : (2 : Int) ^ k ≤ (2 : Int) ^ (w - 1) :=
    pow_le_pow_right₀ (by norm_num) (by omega)
  constructor <;> linarith

/-! ## Operators on the operand stack -/

/-- A push onto a stack that is not full puts the value on top. -/
theorem console_u_push_room (size : Nat) (x : Int) (s : Stack) (h : s.length < size) :
    console_u_push size x s = .ok () (x :: s) := by
  unfold console_u_push console_verify_can_push
  rw [if_neg (by omega)]

/-- The binary operator macro on a stack of at least two values. -/
theorem console_binop_two (w : Nat) (op : Int → Int → Int) (x1 x2 : Int) (rest : Stack) :
    console_binop w op (x2 :: x1 :: rest) = .ok () (wrap w (op x1 x2) :: rest) := by
  simp [console_binop, console_u_pop, console_u_tos, console_u_tos_assign,
    console_verify_can_pop, console_raise]

/-- The unary operator macro on a non-empty stack. -/
theorem console_unop_cons (w : Nat) (op : Int → Int) (v : Int) (rest : Stack) :
    console_unop w op (v :: rest) = .ok () (wrap w (op v) :: rest) := by
  simp [console_unop, console_u_tos, console_u_tos_assign, console_verify_can_pop,
    console_raise]

/-- The user command NEGATE on a non-empty stack. -/
theorem negate_cons (hash : List Char → Nat) (w rcw : Nat) (cmd : List Char)
    (h : hash cmd = 0x7A79) (v : Int) (rest : Stack) :
    console_cmds_user hash w rcw cmd (v :: rest) = .ok true (wrap w (-v) :: rest) := by
  simp [console_cmds_user, h, console_unop_cons, matched]

/-- The user command NEGATE on the empty stack. -/
theorem negate_nil (hash : List Char → Nat) (w rcw : Nat) (cmd : List Char)
    (h : hash cmd = 0x7A79) :
    console_cmds_user hash w rcw cmd [] = .raised CONSOLE_RC_ERR_DSTK_UNF [] := by
  simp [console_cmds_user, h, console_unop, console_u_tos, console_verify_can_pop,
    console_raise, matched]

/-- C1: on a stack whose top is x2 with x1 directly below, the user command `+`
leaves x1 + x2 and the user command `-` leaves x1 - x2 (in the machine word) in
place of the two, the entries below are unchanged and the depth is one less;
pushing 3 and 4 and then `+` leaves [7], pushing 10 and 3 and then `-` leaves [7]. -/
theorem user_add_sub_on_two_operands (hash : List Char → Nat) (w rcw : Nat)
    (plus minus : List Char) (hp : hash plus = 0xB58E) (hm : hash minus = 0xB588)
    (x1 x2 : Int) (rest : Stack) :
    console_cmds_user hash w rcw plus (x2 :: x1 :: rest)
        = .ok true (wrap w (x1 + x2) :: rest) ∧
    console_cmds_user hash w rcw minus (x2 :: x1 :: rest)
        = .ok true (wrap w (x1 - x2) :: rest) ∧
    (console_cmds_user hash w rcw plus (x2 :: x1 :: rest)).stack.length + 1
        = (x2 :: x1 :: rest).length ∧
    (console_cmds_user hash w rcw minus (x2 :: x1 :: rest)).stack.length + 1
        = (x2 :: x1 :: rest).length ∧
    (5 ≤ w → ∀ size : Nat, 2 ≤ size →
      console_u_push size 3 [] = .ok () [3] ∧
      console_u_push size 4 [3] = .ok () [4, 3] ∧
      console_cmds_user hash w rcw plus [4, 3] = .ok true [7] ∧
      console_u_push size 10 [] = .ok () [10] ∧
      console_u_push size 3 [10] = .ok () [3, 10] ∧
      console_cmds_user hash w rcw minus [3, 10] = .ok true [7]) := by
  have eplus : ∀ a b r, console_cmds_user hash w rcw plus (b :: a :: r)
      = .ok true (wrap w (a + b) :: r) := by
    intro a b r
    simp [console_cmds_user, hp, console_binop_two, matched]
  have eminus : ∀ a b r, console_cmds_user hash w rcw minus (b :: a :: r)
      = .ok true (wrap w (a - b) :: r) := by
    intro a b r
    simp [console_cmds_user, hm, console_binop_two, matched]
  refine ⟨eplus _ _ _, eminus _ _ _, ?_, ?_, ?_⟩
  · rw [eplus]; simp [Result.stack]
  · rw [eminus]; simp [Result.stack]
  · intro hw size hsize
    have h7 : wrap w 7 = 7 :=
      wrap_of_isWord w (by omega) 7 (isWord_of_bits w 4 hw 7 (by norm_num) (by norm_num))
    refine ⟨?_, ?_, ?_, ?_, ?_, ?_⟩
    · exact console_u_push_room size _ _ (by simp; omega)
    · exact console_u_push_room size _ _ (by simp; omega)
    · rw [eplus]; norm_num; exact h7
    · exact console_u_push_room size _ _ (by simp; omega)
    · exact console_u_push_room size _ _ (by simp; omega)
    · rw [eminus]; norm_num; exact h7

/-- The add and subtract statement at the stack 40, 2, 9 (top first) with 16 bit words. -/
theorem user_add_sub_on_two_operands_witness :
    console_hash "+".toList = 0xB58E ∧ console_hash "-".toList = 0xB588 ∧
    console_cmds_user console_hash 16 8 "+".toList [40, 2, 9] = .ok true (wrap 16 (2 + 40) :: [9]) ∧
    console_cmds_user console_hash 16 8 "-".toList [40, 2, 9] = .ok true (wrap 16 (2 - 40) :: [9]) :=
  ⟨by decide, by decide,
   (user_add_sub_on_two_operands console_hash 16 8 "+".toList "-".toList
      (by decide) (by decide) 2 40 [9]).1,
   (user_add_sub_on_two_operands console_hash 16 8 "+".toList "-".toList
      (by decide) (by decide) 2 40 [9]).2.1⟩

/-- Counterexample to C2 on a stack of one value: the binary operator pops the
value before the missing left operand is noticed, so the stack [5] is left empty. -/
theorem binop_one_value_not_preserved :
    ([5] : Stack).length < 2 ∧
    console_cmds_user console_hash 16 8 "+".toList [5] = .raised CONSOLE_RC_ERR_DSTK_UNF [] ∧
    (console_cmds_user console_hash 16 8 "+".toList [5]).stack ≠ [5] := by
  decide

/-- C2 (amended): on the empty stack a binary operator raises the stack-underflow
error and the stack stays empty; on a stack of exactly one value it raises the
stack-underflow error after that value has been popped as the right-hand
operand, leaving the stack empty; on the empty stack a unary operator raises
the stack-underflow error and the stack stays empty. The same holds for the
user commands `+`, `-` and NEGATE. -/
theorem operators_underflow (w : Nat) (op2 : Int → Int → Int) (op1 : Int → Int) :
    console_binop w op2 [] = .raised CONSOLE_RC_ERR_DSTK_UNF [] ∧
    (∀ x : Int, console_binop w op2 [x] = .raised CONSOLE_RC_ERR_DSTK_UNF []) ∧
    console_unop w op1 [] = .raised CONSOLE_RC_ERR_DSTK_UNF [] ∧
    (∀ (hash : List Char → Nat) (rcw : Nat) (cmd : List Char),
      hash cmd = 0xB58E ∨ hash cmd = 0xB588 →
        console_cmds_user hash w rcw cmd [] = .raised CONSOLE_RC_ERR_DSTK_UNF [] ∧
        ∀ x : Int, console_cmds_user hash w rcw cmd [x] = .raised CONSOLE_RC_ERR_DSTK_UNF []) ∧
    (∀ (hash : List Char → Nat) (rcw : Nat) (cmd : List Char),
      hash cmd = 0x7A79 →
        console_cmds_user hash w rcw cmd [] = .raised CONSOLE_RC_ERR_DSTK_UNF []) := by
  have b0 : ∀ op : Int → Int → Int,
      console_binop w op [] = .raised CONSOLE_RC_ERR_DSTK_UNF [] := by
    intro op
    simp [console_binop, console_u_pop, console_verify_can_pop, console_raise]
  have b1 : ∀ (op : Int → Int → Int) (x : Int),
      console_binop w op [x] = .raised CONSOLE_RC_ERR_DSTK_UNF [] := by
    intro op x
    simp [console_binop, console_u_pop, console_u_tos, console_verify_can_pop, console_raise]
  refine ⟨b0 op2, b1 op2, ?_, ?_, ?_⟩
  · simp [console_unop, console_u_tos, console_verify_can_pop, console_raise]
  · intro hash rcw cmd h
    rcases h with h | h
    · constructor
      · simp [console_cmds_user, h, b0, matched]
      · intro x
        simp [console_cmds_user, h, b1, matched]
    · constructor
      · simp [console_cmds_user, h, b0, matched]
      · intro x
        simp [console_cmds_user, h, b1, matched]
  · intro hash rcw cmd h
    exact negate_nil hash w rcw cmd h

/-- The amended underflow statement at the user command `-` on the stack [7]. -/
theorem operators_underflow_witness :
    console_hash "-".toList = 0xB588 ∧
    console_cmds_user console_hash 16 8 "-".toList [7] = .raised CONSOLE_RC_ERR_DSTK_UNF [] :=
  ⟨by decide,
   ((operators_underflow 16 (fun a b => a - b) (fun a => -a)).2.2.2.1 console_hash 8
      "-".toList (Or.inr (by decide))).2 7⟩

/-- C3: NEGATE turns the stack [5] into [-5]; on a non-empty stack whose top is a
word other than the minimum signed value, NEGATE applied twice gives the stack
back; one NEGATE keeps the depth and every entry below the top, raise or not. -/
theorem negate_twice_restores (hash : List Char → Nat) (w rcw : Nat) (cmd : List Char)
    (hc : hash cmd = 0x7A79) (hw : 0 < w) :
    (4 ≤ w → console_cmds_user hash w rcw cmd [5] = .ok true [-5]) ∧
    (∀ (v : Int) (rest : Stack), isWord w v → v ≠ -(2 : Int) ^ (w - 1) →
      ∃ s1 : Stack,
        console_cmds_user hash w rcw cmd (v :: rest) = .ok true s1 ∧
        s1 = -v :: rest ∧
        console_cmds_user hash w rcw cmd s1 = .ok true (v :: rest)) ∧
    (∀ s : Stack,
      (console_cmds_user hash w rcw cmd s).stack.length = s.length ∧
      (console_cmds_user hash w rcw cmd s).stack.tail = s.tail) := by
  refine ⟨?_, ?_, ?_⟩
  · intro h4
    rw [negate_cons hash w rcw cmd hc]
    rw [wrap_of_isWord w hw (-5) (isWord_of_bits w 3 h4 (-5) (by norm_num) (by norm_num))]
  · intro v rest hv hmin
    have hn : isWord w (-v) := by
      obtain ⟨h1, h2⟩ := hv
      have hlt : -(2 : Int) ^ (w - 1) < v := lt_of_le_of_ne h1 (Ne.symm hmin)
      constructor <;> linarith
    refine ⟨-v :: rest, ?_, rfl, ?_⟩
    · rw [negate_cons hash w rcw cmd hc, wrap_of_isWord w hw (-v) hn]
    · rw [negate_cons hash w rcw cmd hc, neg_neg, wrap_of_isWord w hw v hv]
  · intro s
    cases s with
    | nil => rw [negate_nil hash w rcw cmd hc]; simp [Result.stack]
    | cons v rest => rw [negate_cons hash w rcw cmd hc]; simp [Result.stack]

/-- The NEGATE statement at the stack [5] with 16 bit words. -/
theorem negate_twice_restores_witness :
    console_hash "NEGATE".toList = 0x7A79 ∧ 0 < 16 ∧
    console_cmds_user console_hash 16 8 "NEGATE".toList [5] = .ok true [-5] :=
  ⟨by decide, by decide,
   (negate_twice_restores console_hash 16 8 "NEGATE".toList (by decide) (by decide)).1
     (by decide)⟩

/-- NEGATE at the minimum signed value: on a stack whose top is `-2^(w-1)` no
error is raised and `-2^(w-1)` stays on top, the entries below unchanged; and
NEGATE applied twice gives back every non-empty stack whose top is a word, the
minimum included. Where console_uint_t is at least as wide as `int`, the macro
CONSOLE_INT_MIN is that minimum, equal to -CONSOLE_INT_MAX - 1 and different
from CONSOLE_INT_MAX. -/
theorem negate_wraps_at_minimum (hash : List Char → Nat) (w rcw : Nat) (cmd : List Char)
    (hc : hash cmd = 0x7A79) (hw : 0 < w) :
    (∀ rest : Stack,
      console_cmds_user hash w rcw cmd (-(2 : Int) ^ (w - 1) :: rest)
        = .ok true (-(2 : Int) ^ (w - 1) :: rest)) ∧
    (∀ (v : Int) (rest : Stack), isWord w v →
      ∃ s1 : Stack,
        console_cmds_user hash w rcw cmd (v :: rest) = .ok true s1 ∧
        s1.length = (v :: rest).length ∧ s1.tail = rest ∧
        console_cmds_user hash w rcw cmd s1 = .ok true (v :: rest)) ∧
    (∀ intBits : Nat, intBits ≤ w →
      CONSOLE_INT_MIN intBits w = -(2 : Int) ^ (w - 1) ∧
      CONSOLE_INT_MIN intBits w = -CONSOLE_INT_MAX intBits w - 1 ∧
      CONSOLE_INT_MIN intBits w ≠ CONSOLE_INT_MAX intBits w) := by
  have hpos : (0 : Int) < (2 : Int) ^ (w - 1) := by positivity
  have hminw : isWord w (-(2 : Int) ^ (w - 1)) := by
    constructor <;> linarith
  have hself : wrap w (-(-(2 : Int) ^ (w - 1))) = -(2 : Int) ^ (w - 1) := by
    obtain ⟨k, rfl⟩ : ∃ k, w = k + 1 := ⟨w - 1, by omega⟩
    refine wrap_eq_of_sub k _ _ 1 hminw ?_
    simp only [Nat.add_sub_cancel]; ring
  refine ⟨?_, ?_, ?_⟩
  · intro rest
    rw [negate_cons hash w rcw cmd hc, hself]
  · intro v rest hv
    refine ⟨wrap w (-v) :: rest, negate_cons hash w rcw cmd hc v rest, by simp, by simp, ?_⟩
    rw [negate_cons hash w rcw cmd hc, wrap_neg_neg w hw v hv]
  · intro intBits hp
    have hmin := INT_MIN_eq intBits w hw hp
    have hmax := INT_MAX_eq intBits w hw hp
    refine ⟨hmin, ?_, ?_⟩
    · rw [hmin, hmax]; ring
    · rw [hmin, hmax]; intro h; linarith

/-- The limit macros evaluated for console types of 8, 16, 32 and 64 bits on a
platform with 32 bit `int`. -/
theorem int_limit_macros_examples :
    CONSOLE_INT_MAX 32 8 = -1 ∧ CONSOLE_INT_MIN 32 8 = 0 ∧
    CONSOLE_INT_MAX 32 16 = -1 ∧ CONSOLE_INT_MIN 32 16 = 0 ∧
    CONSOLE_INT_MAX 32 32 = 2147483647 ∧ CONSOLE_INT_MIN 32 32 = -2147483648 ∧
    CONSOLE_INT_MAX 32 64 = 9223372036854775807 ∧
    CONSOLE_INT_MIN 32 64 = -9223372036854775808 ∧
    CONSOLE_INT_MAX 16 16 = 32767 ∧ CONSOLE_INT_MIN 16 16 = -32768 := by
  decide

/-- C7: OK is zero, every named error code is positive, every named status code
is negative, the named codes are pairwise distinct, the user error range starts
at 7 above every built-in error code and is the EXIT code of the example, and
the user status range starts at -3 below every built-in status code. -/
theorem status_codes_partitioned_by_sign :
    CONSOLE_RC_OK = 0 ∧
    (∀ c ∈ builtinErrorCodes ++ [CONSOLE_RC_ERR_USER], 0 < c) ∧
    (∀ c ∈ builtinStatusCodes ++ [CONSOLE_RC_STAT_USER], c < 0) ∧
    namedCodes.Nodup ∧
    (∀ c ∈ builtinErrorCodes, c < CONSOLE_RC_ERR_USER) ∧
    CONSOLE_RC_ERR_USER = 7 ∧
    CONSOLE_RC_ERR_USER_EXIT = CONSOLE_RC_ERR_USER ∧
    (∀ c ∈ builtinStatusCodes, CONSOLE_RC_STAT_USER < c) ∧
    CONSOLE_RC_STAT_USER = -3 := by
  decide

/-- C8: in the recogniser list of the desktop example, with and without
CONSOLE_WANT_HELP, every number or string recogniser stands before every
hash-based command recogniser, the four number and string recognisers and the
hash-based ones are all that is registered, the builtin recogniser stands
before the user recogniser, and the user recogniser is the last entry before
the terminating NULL. -/
theorem recognisers_order (want_help : Bool) :
    (∀ i j : Fin (RECOGNISERS want_help).length, ∀ a b : RecogniserName,
      (RECOGNISERS want_help).get i = some a → (RECOGNISERS want_help).get j = some b →
      a.isNumberOrString = true → b.isHashBased = true → i < j) ∧
    (∀ n ∈ [RecogniserName.console_r_number_decimal, .console_r_number_hex,
        .console_r_string, .console_r_hex_string], some n ∈ RECOGNISERS want_help) ∧
    (some RecogniserName.console_cmds_help ∈ RECOGNISERS want_help ↔ want_help = true) ∧
    (∀ i j : Fin (RECOGNISERS want_help).length,
      (RECOGNISERS want_help).get i = some .console_cmds_builtin →
      (RECOGNISERS want_help).get j = some .console_cmds_user → i < j) ∧
    (∃ front : List RecogniserName,
      RECOGNISERS want_help = front.map some ++ [some .console_cmds_user, none] ∧
      RecogniserName.console_cmds_user ∉ front ∧
      RecogniserName.console_cmds_builtin ∈ front) := by
  cases want_help
  · refine ⟨by decide, by decide, by decide, by decide, ?_⟩
    exact ⟨[.console_r_number_decimal, .console_r_number_hex, .console_r_string,
      .console_r_hex_string, .console_cmds_builtin], by decide, by decide, by decide⟩
  · refine ⟨by decide, by decide, by decide, by decide, ?_⟩
    exact ⟨[.console_r_number_decimal, .console_r_number_hex, .console_r_string,
      .console_r_hex_string, .console_cmds_builtin, .console_cmds_help],
      by decide, by decide, by decide⟩

/-- The host loop on every status: the error report is written exactly when the
status is neither OK nor the EXIT code; for OK the host only prompts, for the
EXIT code it says goodbye and leaves the loop. -/
theorem host_on_line_cases (rc : Int) (cmd : List Char) :
    (HostOut.errorReport cmd rc ∈ (host_on_line rc cmd).1 ↔
      rc ≠ CONSOLE_RC_OK ∧ rc ≠ CONSOLE_RC_ERR_USER_EXIT) ∧
    (rc = CONSOLE_RC_OK → host_on_line rc cmd = ([.separator, .prompt], true)) ∧
    (rc = CONSOLE_RC_ERR_USER_EXIT → host_on_line rc cmd = ([.separator, .bye], false)) ∧
    (0 < rc → rc ≠ CONSOLE_RC_ERR_USER_EXIT →
      host_on_line rc cmd = ([.separator, .errorReport cmd rc, .prompt], true)) := by
  have hexit : CONSOLE_RC_ERR_USER_EXIT = 7 := by decide
  have hok : CONSOLE_RC_OK = 0 := rfl
  refine ⟨?_, ?_, ?_, ?_⟩
  · unfold host_on_line
    by_cases h0 : CONSOLE_RC_OK = rc
    · simp [h0]
    · by_cases h7 : CONSOLE_RC_ERR_USER_EXIT = rc
      · simp [h0, h7]
      · simp [h0, h7, Ne.symm h0, Ne.symm h7]
  · intro h
    unfold host_on_line
    rw [if_neg (by simp [h])]
  · intro h
    unfold host_on_line
    rw [h, if_pos (by decide), if_pos rfl]
  · intro h h7
    unfold host_on_line
    rw [hok, if_pos (by omega), if_neg (Ne.symm h7)]

/-- C9: consolePrint writes nothing when the low seven bits of the option are
not a defined kind; for the newline kind it writes one newline and no
separator whatever the no-separator bit is; for each other defined kind it
writes the formatted value followed by one space when the no-separator bit is
clear and by nothing when it is set. -/
theorem consolePrint_output (w : Nat) (mem : Int → List Char) (opt : Nat) (x : Int) :
    ((opt &&& 0x7f) ∉ definedKinds → consolePrint w mem opt x = []) ∧
    (opt &&& 0x7f = CONSOLE_PRINT_NEWLINE → consolePrint w mem opt x = ['\n']) ∧
    (opt &&& 0x7f = CONSOLE_PRINT_SIGNED → consolePrint w mem opt x
      = printf_ld x ++ (if opt &&& CONSOLE_PRINT_NO_SEP = 0 then [' '] else [])) ∧
    (opt &&& 0x7f = CONSOLE_PRINT_UNSIGNED → consolePrint w mem opt x
      = '+' :: printf_lu (toUnsigned w x)
          ++ (if opt &&& CONSOLE_PRINT_NO_SEP = 0 then [' '] else [])) ∧
    (opt &&& 0x7f = CONSOLE_PRINT_HEX → consolePrint w mem opt x
      = '$' :: printf_lx (toUnsigned w x)
          ++ (if opt &&& CONSOLE_PRINT_NO_SEP = 0 then [' '] else [])) ∧
    (opt &&& 0x7f = CONSOLE_PRINT_STR → consolePrint w mem opt x
      = mem x ++ (if opt &&& CONSOLE_PRINT_NO_SEP = 0 then [' '] else [])) ∧
    (opt &&& 0x7f = CONSOLE_PRINT_STR_P → consolePrint w mem opt x
      = mem x ++ (if opt &&& CONSOLE_PRINT_NO_SEP = 0 then [' '] else [])) ∧
    (opt &&& 0x7f = CONSOLE_PRINT_CHAR → consolePrint w mem opt x
      = Char.ofNat (toUnsigned 8 x)
          :: (if opt &&& CONSOLE_PRINT_NO_SEP = 0 then [' '] else [])) := by
  unfold consolePrint
  generalize opt &&& 0x7f = k
  generalize (if opt &&& CONSOLE_PRINT_NO_SEP = 0 then [' '] else []) = sep
  dsimp only
  refine ⟨?_, ?_, ?_, ?_, ?_, ?_, ?_, ?_⟩
  · intro h
    simp only [definedKinds, CONSOLE_PRINT_NEWLINE, CONSOLE_PRINT_SIGNED,
      CONSOLE_PRINT_UNSIGNED, CONSOLE_PRINT_HEX, CONSOLE_PRINT_STR, CONSOLE_PRINT_STR_P,
      CONSOLE_PRINT_CHAR, List.mem_cons, List.mem_singleton, List.not_mem_nil, or_false,
      not_or] at h
    obtain ⟨h0, h1, h2, h3, h4, h5, h6⟩ := h
    split <;> first | rfl | contradiction
  all_goals
    intro h
    subst h
    rfl

/-- The print statement at option 0x81 (signed, no separator) and value -42. -/
theorem consolePrint_output_witness :
    0x81 &&& 0x7f = CONSOLE_PRINT_SIGNED ∧
    consolePrint 16 (fun _ => []) 0x81 (-42)
      = printf_ld (-42) ++ (if 0x81 &&& CONSOLE_PRINT_NO_SEP = 0 then [' '] else []) :=
  ⟨by decide, (consolePrint_output 16 (fun _ => []) 0x81 (-42)).2.2.1 (by decide)⟩

/-- Concrete readings of consolePrint: kind 7 with or without the no-separator bit prints nothing,
a newline never gets a separator, a signed value gets one unless 0x80 is set. -/
theorem consolePrint_examples :
    consolePrint 16 (fun _ => []) 7 42 = [] ∧
    consolePrint 16 (fun _ => []) 0x87 42 = [] ∧
    consolePrint 16 (fun _ => []) 0x80 42 = ['\n'] ∧
    consolePrint 16 (fun _ => []) 0x01 (-42) = "-42 ".toList ∧
    consolePrint 16 (fun _ => []) 0x81 (-42) = "-42".toList ∧
    consolePrint 16 (fun _ => []) 0x02 (-1) = "+65535 ".toList ∧
    consolePrint 16 (fun _ => []) 0x83 255 = "$ff".toList ∧
    consolePrint 16 (fun _ => "hi".toList) 0x04 0 = "hi ".toList ∧
    consolePrint 16 (fun _ => []) 0x06 65 = "A ".toList := by
  decide

/-! ## Line processing -/

/-- Skipping leading whitespace stops at the first character that is not whitespace. -/
theorem dropWhile_lead (ws : Char → Bool) (lead : List Char) (c : Char) (tail : List Char)
    (hlead : ∀ x ∈ lead, ws x = true) (hc : ws c = false) :
    (lead ++ c :: tail).dropWhile ws = c :: tail := by
  induction lead with
  | nil => simp [List.dropWhile, hc]
  | cons a l ih =>
    have ha : ws a = true := hlead a (by simp)
    have hl : ∀ x ∈ l, ws x = true := fun x hx => hlead x (by simp [hx])
    simp [List.dropWhile, ha, ih hl]

/-- Recognisers that decline a token and leave the stack alone hand it to the rest of the chain. -/
theorem execute_declined (pre rs : List Recogniser) (cmd : List Char) (s : Stack)
    (hpre : ∀ r ∈ pre, ∀ st : Stack, r cmd st = .ok false st) :
    execute (pre ++ rs) cmd s = execute rs cmd s := by
  induction pre with
  | nil => rfl
  | cons r l ih =>
    have hr : r cmd s = .ok false s := hpre r (by simp) s
    have hl : ∀ r ∈ l, ∀ st : Stack, r cmd st = .ok false st :=
      fun r hr st => hpre r (by simp [hr]) st
    simp only [List.cons_append, execute, hr]
    exact ih hl

/-- What is left after a token is shorter than the text the token started in. -/
theorem rest_shorter (ws : Char → Bool) (str : List Char) (c : Char) (cs : List Char)
    (h : str.dropWhile ws = c :: cs) :
    ((c :: cs).dropWhile (fun x => !ws x)).length < str.length := by
  have hc : ws c = false := by
    have := List.head_dropWhile_not ws str (by rw [h]; simp)
    simpa [h] using this
  have h1 : (c :: cs).dropWhile (fun x => !ws x) = cs.dropWhile (fun x => !ws x) := by
    simp [List.dropWhile, hc]
  have h2 : (cs.dropWhile (fun x => !ws x)).length ≤ cs.length :=
    (List.dropWhile_sublist _).length_le
  have h3 : (str.dropWhile ws).length ≤ str.length := (List.dropWhile_sublist _).length_le
  rw [h] at h3
  rw [h1]
  simp at h3
  omega

/-- With more fuel than characters the loop of consoleProcess returns. -/
theorem processLoop_returns (ws : Char → Bool) (rs : List Recogniser) (fuel : Nat) :
    ∀ (str : List Char) (cur : Option (List Char)) (seen : List (List Char)) (s : Stack),
      str.length < fuel → (processLoop ws rs fuel str cur seen s).isSome = true := by
  induction fuel with
  | zero => intro str cur seen s h; omega
  | succ n ih =>
    intro str cur seen s h
    unfold processLoop
    split
    · rfl
    · rename_i c cs hd
      dsimp only
      split
      · rfl
      · apply ih
        have := rest_shorter ws str c cs hd
        omega

/-- The line-processing entry point returns a result on every line. -/
theorem consoleProcess_returns (ws : Char → Bool) (rs : List Recogniser) (str : List Char)
    (s : Stack) : (consoleProcess ws rs str s).isSome = true :=
  processLoop_returns ws rs (str.length + 1) str none [] s (by omega)

/-- C5: when the first token of a line is `#` and the recognisers registered
before the user recogniser decline it, the line-processing entry point returns
the ignore-to-end-of-line status -1 with `#` as the current token, `#` is the
only token handed to the chain, and the operand stack is the one from before
the line, whatever follows the `#`. -/
theorem comment_line_ignored (ws : Char → Bool) (hash : List Char → Nat) (w rcw : Nat)
    (pre : List Recogniser) (lead tail : List Char) (s : Stack)
    (hh : hash ['#'] = 0xB586) (hws : ws '#' = false)
    (hlead : ∀ c ∈ lead, ws c = true)
    (htail : ∀ c ∈ tail.head?, ws c = true)
    (hpre : ∀ r ∈ pre, ∀ st : Stack, r ['#'] st = .ok false st) :
    consoleProcess ws (pre ++ [console_cmds_user hash w rcw]) (lead ++ '#' :: tail) s
      = some ⟨CONSOLE_RC_STAT_IGN_EOL, some ['#'], s, [['#']]⟩ ∧
    CONSOLE_RC_STAT_IGN_EOL = -1 := by
  refine ⟨?_, rfl⟩
  have htok : ('#' :: tail).takeWhile (fun x => !ws x) = ['#'] := by
    cases tail with
    | nil => simp [List.takeWhile, hws]
    | cons t ts =>
      have ht : ws t = true := htail t (by simp)
      simp [List.takeWhile, hws, ht]
  have hexec : execute (pre ++ [console_cmds_user hash w rcw]) ['#'] s
      = .raised CONSOLE_RC_STAT_IGN_EOL s := by
    rw [execute_declined pre _ ['#'] s hpre]
    simp [execute, console_cmds_user, hh, console_raise]
  unfold consoleProcess processLoop
  rw [dropWhile_lead ws lead '#' tail hlead hws]
  simp only [htok, hexec, List.nil_append]

/-- The comment statement at the line ` # 1 2 + FOO` with the stack 4, 2. -/
theorem comment_line_ignored_witness :
    consoleProcess (fun c => c = ' ') ([fun _ st => .ok false st]
        ++ [console_cmds_user console_hash 16 8]) (" ".toList ++ '#' :: " 1 2 + FOO".toList) [4, 2]
      = some ⟨CONSOLE_RC_STAT_IGN_EOL, some ['#'], [4, 2], [['#']]⟩ ∧
    CONSOLE_RC_STAT_IGN_EOL = -1 :=
  comment_line_ignored (fun c => c = ' ') console_hash 16 8 [fun _ st => .ok false st]
    " ".toList " 1 2 + FOO".toList [4, 2] (by decide) (by decide) (by decide) (by decide)
    (by intro r hr st; simp at hr; subst hr; rfl)

/-! ## The input accumulator -/

/-- Storing a character at the end of the stored prefix extends the prefix by it. -/
theorem take_set_succ (l : List Char) (i : Nat) (c : Char) (h : i < l.length) :
    (l.set i c).take (i + 1) = l.take i ++ [c] := by
  have h0 : (l.set i c).take i = l.take i := by
    rw [List.set_take]
    exact List.set_eq_of_length_le (by simp)
  rw [List.take_succ, List.getElem?_set_self h, h0]
  rfl

/-- Feeding characters other than the newline: every call is pending, the count of
stored characters grows up to the capacity, the dropped-character flag is set
once the capacity is exceeded, and the stored prefix is extended by the
characters that still fitted. -/
theorem acceptAll_pending (size : Nat) (nl : Char) (cs : List Char) :
    ∀ a : AcceptState, (∀ c ∈ cs, c ≠ nl) → a.inbidx ≤ size → a.inbuf.length = size + 1 →
      (acceptAll size nl cs a).1 = List.replicate cs.length CONSOLE_RC_STAT_ACC_PEND ∧
      (acceptAll size nl cs a).2.inbidx = min (a.inbidx + cs.length) size ∧
      (acceptAll size nl cs a).2.overflow
        = (a.overflow || decide (size < a.inbidx + cs.length)) ∧
      (acceptAll size nl cs a).2.inbuf.length = size + 1 ∧
      (acceptAll size nl cs a).2.inbuf.take (acceptAll size nl cs a).2.inbidx
        = a.inbuf.take a.inbidx ++ cs.take (size - a.inbidx) := by
  induction cs with
  | nil =>
    intro a _ hidx hlen
    simp [acceptAll, Nat.min_eq_left hidx]
    omega
  | cons c cs ih =>
    intro a hcs hidx hlen
    have hc : c ≠ nl := hcs c (by simp)
    have hrest : ∀ x ∈ cs, x ≠ nl := fun x hx => hcs x (by simp [hx])
    by_cases hroom : a.inbidx < size
    · have hstep : consoleAccept size nl c a
          = (CONSOLE_RC_STAT_ACC_PEND,
             { a with inbuf := a.inbuf.set a.inbidx c, inbidx := a.inbidx + 1 }) := by
        simp [consoleAccept, hc, hroom]
      obtain ⟨i1, i2, i3, i4, i5⟩ :=
        ih { a with inbuf := a.inbuf.set a.inbidx c, inbidx := a.inbidx + 1 } hrest
          (by simp; omega) (by simp [hlen])
      simp only [acceptAll, hstep]
      refine ⟨?_, ?_, ?_, ?_, ?_⟩
      · rw [i1]; simp [List.replicate_succ]
      · rw [i2]; simp; congr 1; omega
      · rw [i3]; simp; congr 2; apply propext; constructor <;> intro h <;> omega
      · exact i4
      · rw [i5]
        simp only
        rw [take_set_succ a.inbuf a.inbidx c (by omega)]
        obtain ⟨d, hd⟩ : ∃ d, size - a.inbidx = d + 1 := ⟨size - a.inbidx - 1, by omega⟩
        have hd2 : size - (a.inbidx + 1) = d := by omega
        rw [hd, hd2]
        simp
    · have hstep : consoleAccept size nl c a
          = (CONSOLE_RC_STAT_ACC_PEND, { a with overflow := true }) := by
        simp [consoleAccept, hc, hroom]
      obtain ⟨i1, i2, i3, i4, i5⟩ :=
        ih { a with overflow := true } hrest (by simpa using hidx) (by simpa using hlen)
      simp only [acceptAll, hstep]
      have hsz : a.inbidx = size := by omega
      refine ⟨?_, ?_, ?_, ?_, ?_⟩
      · rw [i1]; simp [List.replicate_succ]
      · rw [i2]; simp; omega
      · rw [i3]; simp; right; omega
      · exact i4
      · rw [i5]; simp [hsz]

/-- C4: a line of n characters other than the newline, typed from the cleared
state and closed by the newline: each of the n calls returns the pending
status; the newline call returns OK when n is at most the capacity and the
accumulator overflow error otherwise, so that error occurs once among the n+1
statuses when the line is too long and never otherwise; the buffer then holds
the first min(n, capacity) characters of the line followed by a nul, and the
accumulator is back in the cleared state. -/
theorem accept_line_overflow_on_newline (size : Nat) (nl : Char) (line : List Char)
    (a : AcceptState) (hline : ∀ c ∈ line, c ≠ nl) (hbuf : a.inbuf.length = size + 1) :
    (acceptLine size nl line (consoleAcceptClear a)).1
      = List.replicate line.length CONSOLE_RC_STAT_ACC_PEND ∧
    (acceptLine size nl line (consoleAcceptClear a)).2.1
      = (if line.length ≤ size then CONSOLE_RC_OK else CONSOLE_RC_ERR_ACC_OVF) ∧
    ((acceptLine size nl line (consoleAcceptClear a)).1
        ++ [(acceptLine size nl line (consoleAcceptClear a)).2.1]).count CONSOLE_RC_ERR_ACC_OVF
      = (if size < line.length then 1 else 0) ∧
    (consoleAcceptBuffer (acceptLine size nl line (consoleAcceptClear a)).2.2).take
        (min line.length size) = line.take (min line.length size) ∧
    (consoleAcceptBuffer (acceptLine size nl line (consoleAcceptClear a)).2.2)[min line.length size]?
      = some nul ∧
    consoleAcceptClear (acceptLine size nl line (consoleAcceptClear a)).2.2
      = (acceptLine size nl line (consoleAcceptClear a)).2.2 := by
  obtain ⟨i1, i2, i3, i4, i5⟩ :=
    acceptAll_pending size nl line (consoleAcceptClear a) hline
      (by simp [consoleAcceptClear]) (by simpa [consoleAcceptClear] using hbuf)
  simp only [consoleAcceptClear, Nat.zero_add, Bool.false_or, List.take_zero, List.nil_append,
    Nat.sub_zero] at i1 i2 i3 i4 i5
  have hpend : CONSOLE_RC_STAT_ACC_PEND ≠ CONSOLE_RC_ERR_ACC_OVF := by decide
  have htake : line.take (min line.length size) = line.take size := by
    by_cases h : line.length ≤ size
    · rw [Nat.min_eq_left h, List.take_of_length_le h, List.take_of_length_le (le_refl _)]
    · rw [Nat.min_eq_right (by omega)]
  have key : ∀ (rcs : List Int) (buf : List Char) (idx : Nat) (ovf : Bool),
      rcs = List.replicate line.length CONSOLE_RC_STAT_ACC_PEND →
      idx = min line.length size → ovf = decide (size < line.length) →
      buf.length = size + 1 → buf.take idx = line.take size →
      rcs = List.replicate line.length CONSOLE_RC_STAT_ACC_PEND ∧
      (consoleAccept size nl nl ⟨buf, idx, ovf⟩).1
        = (if line.length ≤ size then CONSOLE_RC_OK else CONSOLE_RC_ERR_ACC_OVF) ∧
      (rcs ++ [(consoleAccept size nl nl ⟨buf, idx, ovf⟩).1]).count CONSOLE_RC_ERR_ACC_OVF
        = (if size < line.length then 1 else 0) ∧
      (consoleAcceptBuffer (consoleAccept size nl nl ⟨buf, idx, ovf⟩).2).take
        (min line.length size) = line.take (min line.length size) ∧
      (consoleAcceptBuffer (consoleAccept size nl nl ⟨buf, idx, ovf⟩).2)[min line.length size]?
        = some nul ∧
      consoleAcceptClear (consoleAccept size nl nl ⟨buf, idx, ovf⟩).2
        = (consoleAccept size nl nl ⟨buf, idx, ovf⟩).2 := by
    intro rcs buf idx ovf j1 j2 j3 j4 j5
    subst j1 j2 j3
    simp only [consoleAccept, consoleAcceptClear, consoleAcceptBuffer, if_true]
    refine ⟨trivial, ?_, ?_, ?_, ?_, trivial⟩
    · by_cases h : line.length ≤ size
      · simp [h, Nat.not_lt.mpr h]
      · simp [h, Nat.lt_of_not_le h]
    · rw [List.count_append, List.count_replicate]
      by_cases h : size < line.length
      · simp [h, hpend]
      · simp [h, hpend]
        decide
    · rw [List.set_take, List.set_eq_of_length_le (by simp), htake, ← j5]
    · rw [List.getElem?_set_self (by rw [j4]; omega)]
  exact key _ _ _ _ i1 i2 i3 i4 i5

/-- The accumulator statement at the line `abcde` with room for three characters. -/
theorem accept_line_overflow_on_newline_witness :
    (∀ c ∈ "abcde".toList, c ≠ '\n') ∧
    (acceptLine 3 '\n' "abcde".toList (consoleAcceptClear ⟨[nul, nul, nul, nul], 2, true⟩)).2.1
      = (if "abcde".toList.length ≤ 3 then CONSOLE_RC_OK else CONSOLE_RC_ERR_ACC_OVF) :=
  ⟨by decide,
   (accept_line_overflow_on_newline 3 '\n' "abcde".toList ⟨[nul, nul, nul, nul], 2, true⟩
      (by decide) (by decide)).2.1⟩

/-- The accumulator on concrete lines with room for three characters: a line that
fits, a line of exactly the capacity, and a line that is too long. -/
theorem accept_examples :
    acceptLine 3 '\n' "ab".toList ⟨[nul, nul, nul, nul], 0, false⟩
      = ([-2, -2], 0, ⟨['a', 'b', nul, nul], 0, false⟩) ∧
    acceptLine 3 '\n' "abc".toList ⟨[nul, nul, nul, nul], 0, false⟩
      = ([-2, -2, -2], 0, ⟨['a', 'b', 'c', nul], 0, false⟩) ∧
    acceptLine 3 '\n' "abcde".toList ⟨[nul, nul, nul, nul], 0, false⟩
      = ([-2, -2, -2, -2, -2], 5, ⟨['a', 'b', 'c', nul], 0, false⟩) := by
  decide

/-- The line-processing model on concrete lines, with a chain made of a recogniser
that declines everything and the user recogniser: an empty line, a comment
line, a line whose only token is unknown, and `+` on a stack of two. -/
theorem process_examples :
    consoleProcess (fun c => c = ' ') [fun _ st => .ok false st,
        console_cmds_user console_hash 16 8] "   ".toList [1]
      = some ⟨0, none, [1], []⟩ ∧
    consoleProcess (fun c => c = ' ') [fun _ st => .ok false st,
        console_cmds_user console_hash 16 8] "# + + +".toList [1]
      = some ⟨-1, some "#".toList, [1], ["#".toList]⟩ ∧
    consoleProcess (fun c => c = ' ') [fun _ st => .ok false st,
        console_cmds_user console_hash 16 8] " FOOBAR +".toList [1, 2]
      = some ⟨1, some "FOOBAR".toList, [1, 2], ["FOOBAR".toList]⟩ ∧
    consoleProcess (fun c => c = ' ') [fun _ st => .ok false st,
        console_cmds_user console_hash 16 8] "+ negate".toList [4, 3]
      = some ⟨0, some "negate".toList, [-7], ["+".toList, "negate".toList]⟩ := by
  decide

/-- The modelled hash reproduces the case keys of console_cmds_user. -/
theorem console_hash_keys :
    console_hash "+".toList = 0xB58E ∧ console_hash "-".toList = 0xB588 ∧
    console_hash "NEGATE".toList = 0x7A79 ∧ console_hash "RAISE".toList = 0x4069 ∧
    console_hash "EXIT".toList = 0xC745 ∧ console_hash "#".toList = 0xB586 ∧
    console_hash "negate".toList = 0x7A79 := by
  decide

end Console
